import Mathlib

/-!
Verification of the wave-resonance search core of the 8b-is/qdrant tools.

This file gives a shallow embedding of the core algorithms found in
src/tools/library_ingestion.py, src/tools/library_ingestion_qdrant.py and
src/tools/test_library_search.py, and proves properties of them.

Modelling conventions:
- Python floats are modelled as real numbers; numpy cos is Real.cos.
- Python lists are Lean lists; list indexing that cannot fail in context is
  modelled with List.getD (the default is never reached where it matters).
- Python code that can raise (indexing a missing value, calling a function
  on None) is modelled with Option: a none result stands for a raised
  exception.
- Python dicts used as insertion-ordered maps are modelled as association
  lists in insertion order.
- Python sorted(..., key=k, reverse=True) is a stable descending sort; any
  two stable sorts by the same key agree, so it is modelled with
  List.insertionSort (Mathlib insertion sort is stable in the same sense).
-/

/-- Descending comparison by a real-valued key, as used by the Python
sorts with reverse=True. -/
def descBy {α : Type} (f : α → ℝ) (a b : α) : Prop :=
  f b ≤ f a

noncomputable instance {α : Type} (f : α → ℝ) : DecidableRel (descBy f) :=
  fun a b => inferInstanceAs (Decidable (f b ≤ f a))

instance {α : Type} (f : α → ℝ) : IsTotal α (descBy f) :=
  ⟨fun a b => le_total (f b) (f a)⟩

instance {α : Type} (f : α → ℝ) : IsTrans α (descBy f) :=
  ⟨fun _ _ _ h1 h2 => le_trans h2 h1⟩

/-- Runs f over the list, collecting produced values in order.
f returning none models a raised Python exception (the whole loop fails),
f returning some none models a skipped iteration (continue),
f returning some (some b) models appending b to the accumulator. -/
def collectSome {α β : Type} (f : α → Option (Option β)) : List α → Option (List β)
  | [] => some []
  | a :: as =>
    match f a with
    | none => none
    | some none => collectSome f as
    | some (some b) => (collectSome f as).map (fun bs => b :: bs)

/-- Wave pattern, the dict produced by WaveTransformer.vector_to_wave:
parallel lists of per-dimension frequencies, amplitudes and phases, plus
for each index the list of (earlier index, interval label) harmonic tags.
Query-side patterns (WaveSearchEngine.vector_to_wave) carry no harmonics
key; they are modelled with harmonics = []. -/
structure WavePattern where
  frequencies : List ℝ
  amplitudes : List ℝ
  phases : List ℝ
  harmonics : List (List (ℕ × String))

/-- SearchContext dataclass of test_library_search.py. -/
structure SearchContext where
  emotional_state : String
  truth_amplification : ℝ
  vulnerability_coefficient : ℝ
  harmonic_preference : String

/-- The fields of the LibraryDocument dataclass (and of the stored document
dicts the search engine loads) that the core algorithms read. The opaque
fields embedding, metadata and timestamp are never inspected by the scored
pipeline and are omitted. -/
structure LibraryDocument where
  id : String
  title : String
  path : String
  content : String
  doc_type : String
  category : String
  wave_pattern : Option WavePattern
  emotional_valence : ℝ
  importance : ℝ

namespace WaveTransformer

/-- freq = min(20 + i * 100, 20000) in vector_to_wave. -/
noncomputable def freqOf (i : ℕ) : ℝ :=
  min (20 + (i : ℝ) * 100) 20000

/-- The octave / fifth / fourth classification of a frequency quotient used
when vector_to_wave tags harmonic relationships. -/
noncomputable def classifyInterval (rq : ℝ) : Option String :=
  if |rq - 2| < 0.1 then some "octave"
  else if |rq - 1.5| < 0.1 then some "fifth"
  else if |rq - 1.33| < 0.1 then some "fourth"
  else none

/-- The candidate harmonic tag of index i against an earlier index j: the
quotient freqOf i / freqOf j (0 when freqOf j is not positive) is
classified, a match producing the pair (j, label). -/
noncomputable def tagFor (i j : ℕ) : Option (ℕ × String) :=
  (classifyInterval (if freqOf j > 0 then freqOf i / freqOf j else 0)).map (fun s => (j, s))

/-- The harmonic tags recorded at index i by vector_to_wave: the matching
tags against all earlier indices, in index order. -/
noncomputable def harmonicsAt (i : ℕ) : List (ℕ × String) :=
  (List.range i).filterMap (tagFor i)

/-- WaveTransformer.vector_to_wave of library_ingestion.py. The Python loop
appends one frequency, amplitude, phase and harmonic-tag list per input
component; frequency depends only on the index, amplitude is the absolute
value, phase is 0 for non-negative components and pi otherwise. -/
noncomputable def vector_to_wave (v : List ℝ) : WavePattern where
  frequencies := (List.range v.length).map freqOf
  amplitudes := v.map (fun x => |x|)
  phases := v.map (fun x => if 0 ≤ x then 0 else Real.pi)
  harmonics := (List.range v.length).map harmonicsAt

/-- Per-label bonus factor: octave 1.5, fifth 1.3, fourth 1.2, anything
else leaves the bonus unchanged. -/
noncomputable def labelFactor (label : String) : ℝ :=
  if label = "octave" then 1.5
  else if label = "fifth" then 1.3
  else if label = "fourth" then 1.2
  else 1

/-- The nested loop of calculate_resonance over the two harmonic-tag lists
at one index: each pair of tags referring to the same earlier index
multiplies the bonus by the factor of the first tag label. -/
noncomputable def harmonicBonus (h1s h2s : List (ℕ × String)) : ℝ :=
  h1s.foldl
    (fun acc h1 =>
      h2s.foldl (fun acc2 h2 => if h1.1 = h2.1 then acc2 * labelFactor h1.2 else acc2) acc)
    1

/-- One iteration of the scoring loop of
WaveTransformer.calculate_resonance. -/
noncomputable def componentAt (wave1 wave2 : WavePattern) (i : ℕ) : ℝ :=
  let freq_diff := |wave1.frequencies.getD i 0 - wave2.frequencies.getD i 0|
  let freq_match := 1 / (1 + freq_diff / 100)
  let amp_corr := 1 - |wave1.amplitudes.getD i 0 - wave2.amplitudes.getD i 0|
  let phase_diff := |wave1.phases.getD i 0 - wave2.phases.getD i 0|
  let phase_coherence := Real.cos phase_diff
  let harmonic_bonus := harmonicBonus (wave1.harmonics.getD i []) (wave2.harmonics.getD i [])
  freq_match * amp_corr * phase_coherence * harmonic_bonus

/-- WaveTransformer.calculate_resonance of library_ingestion.py: the mean
over the common prefix length of the per-index component scores, 0 for an
empty overlap. This is the ingestion-time scorer used for graph building. -/
noncomputable def calculate_resonance (wave1 wave2 : WavePattern) : ℝ :=
  let n := min wave1.frequencies.length wave2.frequencies.length
  if n = 0 then 0
  else (∑ i ∈ Finset.range n, componentAt wave1 wave2 i) / n

end WaveTransformer

namespace WaveSearchEngine

/-- One iteration of the scoring loop of
WaveSearchEngine.calculate_resonance of test_library_search.py, including
the harmonic-preference bonus and the emotional modulation. -/
noncomputable def componentAt (wave1 wave2 : WavePattern) (context : SearchContext) (i : ℕ) : ℝ :=
  let freq_diff := |wave1.frequencies.getD i 0 - wave2.frequencies.getD i 0|
  let freq_match := 1 / (1 + freq_diff / 100)
  let amp_corr := 1 - |wave1.amplitudes.getD i 0 - wave2.amplitudes.getD i 0|
  let phase_diff := |wave1.phases.getD i 0 - wave2.phases.getD i 0|
  let phase_coherence := Real.cos phase_diff
  let freqQuot :=
    if wave2.frequencies.getD i 0 > 0 then wave1.frequencies.getD i 0 / wave2.frequencies.getD i 0
    else 1
  let harmonic_bonus :=
    if context.harmonic_preference = "octaves" ∧ |freqQuot - 2| < 0.1 then 2
    else if context.harmonic_preference = "fifths" ∧ |freqQuot - 1.5| < 0.1 then 1.8
    else if context.harmonic_preference = "dissonant" ∧ |freqQuot - 1.414| < 0.1 then 1.5
    else 1
  let component_score := freq_match * amp_corr * phase_coherence * harmonic_bonus
  if context.emotional_state = "raw" then component_score * (2 * context.truth_amplification)
  else if context.emotional_state = "graceland" then
    component_score * (context.vulnerability_coefficient * 3)
  else if context.emotional_state = "happy" then
    component_score * (if amp_corr > 0.7 then 1.3 else 0.7)
  else component_score

/-- WaveSearchEngine.calculate_resonance of test_library_search.py: the
query-time scorer with emotional modulation; mean of the per-index
components, 0 for an empty overlap. -/
noncomputable def calculate_resonance (wave1 wave2 : WavePattern) (context : SearchContext) : ℝ :=
  let n := min wave1.frequencies.length wave2.frequencies.length
  if n = 0 then 0
  else (∑ i ∈ Finset.range n, componentAt wave1 wave2 context i) / n

/-- A result dict appended by WaveSearchEngine.search. -/
structure SearchResult where
  id : String
  title : String
  category : String
  resonance : ℝ
  emotional_valence : ℝ
  preview : String
  path : String

/-- Scoring of one stored document inside the search loop: skipped (none)
when the document has no wave pattern; otherwise the query-time resonance,
multiplied by (1 + |valence|) in the raw and graceland states and always
by (0.5 + importance). -/
noncomputable def scoreDoc (queryWave : WavePattern) (context : SearchContext)
    (doc : LibraryDocument) : Option SearchResult :=
  match doc.wave_pattern with
  | none => none
  | some w =>
    let r0 := calculate_resonance queryWave w context
    let r1 :=
      if context.emotional_state = "raw" ∨ context.emotional_state = "graceland" then
        r0 * (1 + |doc.emotional_valence|)
      else r0
    let r2 := r1 * (0.5 + doc.importance)
    some ⟨doc.id, doc.title, doc.category, r2, doc.emotional_valence, doc.content.take 200,
      doc.path⟩

/-- The category filter at the top of the search loop: documents failing an
exact category match against a present filter are skipped. -/
def matchesFilter (category_filter : Option String) (doc : LibraryDocument) : Bool :=
  match category_filter with
  | none => true
  | some c => doc.category == c

/-- The unsorted result list accumulated by the search loop of
WaveSearchEngine.search over the stored documents in insertion order. -/
noncomputable def scoredResults (queryWave : WavePattern) (context : SearchContext)
    (docs : List LibraryDocument) (category_filter : Option String) : List SearchResult :=
  docs.filterMap (fun doc =>
    if matchesFilter category_filter doc then scoreDoc queryWave context doc else none)

/-- Lookup in a Python dict built with dict(pairs): on duplicate keys the
last pair wins. -/
def dictLookup (pairs : List (String × ℝ)) (k : String) : Option ℝ :=
  List.lookup k pairs.reverse

/-- The graph re-ranking boost: a result whose id is among the neighbors of
the top result has its resonance multiplied by (1 + neighbor_score * 0.5);
anything else is unchanged. -/
noncomputable def boostResult (neighbors : List (String × ℝ)) (res : SearchResult) :
    SearchResult :=
  match dictLookup neighbors res.id with
  | some s => { res with resonance := res.resonance * (1 + s * 0.5) }
  | none => res

/-- WaveSearchEngine.search of test_library_search.py, taking the query
wave pattern directly (embedding the query string is an external
collaborator). Scores the stored documents, sorts descending by resonance,
applies the graph re-ranking pass when results are non-empty, the harmonic
preference is not balanced and the top result has a graph entry, then
truncates to top_k. -/
noncomputable def search (queryWave : WavePattern) (context : SearchContext)
    (docs : List LibraryDocument) (graph : List (String × List (String × ℝ)))
    (category_filter : Option String) (top_k : ℕ) : List SearchResult :=
  let results :=
    List.insertionSort (descBy SearchResult.resonance)
      (scoredResults queryWave context docs category_filter)
  let reranked :=
    match results with
    | [] => []
    | top :: rest =>
      if context.harmonic_preference = "balanced" then top :: rest
      else
        match List.lookup top.id graph with
        | none => top :: rest
        | some neighbors =>
          List.insertionSort (descBy SearchResult.resonance)
            (top :: rest.map (boostResult neighbors))
  reranked.take top_k

/-- A dict appended by WaveSearchEngine.find_harmonics. -/
structure HarmonicEntry where
  id : String
  title : String
  category : String
  harmonic_score : ℝ
  relationship : String

/-- Placeholder for the Python format string building the fallback label
out of the numeric quotient; the two-decimal suffix is not modelled (no
statement in this file depends on the fallback branch). -/
def formatQuot (_rq : ℝ) : String :=
  "ratio_"

/-- WaveSearchEngine._identify_harmonic_type of test_library_search.py. -/
noncomputable def _identify_harmonic_type (freq1 freq2 : ℝ) : String :=
  if freq1 = 0 then "undefined"
  else
    let rq := freq2 / freq1
    if |rq - 1| < 0.05 then "unison"
    else if |rq - 2| < 0.1 then "octave"
    else if |rq - 1.5| < 0.1 then "perfect_fifth"
    else if |rq - 1.33| < 0.1 then "perfect_fourth"
    else if |rq - 1.25| < 0.1 then "major_third"
    else if |rq - 1.2| < 0.1 then "minor_third"
    else formatQuot rq

/-- One iteration of the frequency-relationship loop of find_harmonics,
filtered by harmonic_type: +1 for an octave, +0.8 for a fifth, +0.7 for a
fourth. -/
noncomputable def harmonicContribution (harmonic_type : String) (base_freqs other_freqs : List ℝ)
    (i : ℕ) : ℝ :=
  let rq :=
    if base_freqs.getD i 0 > 0 then other_freqs.getD i 0 / base_freqs.getD i 0 else 0
  if (harmonic_type = "all" ∨ harmonic_type = "octave") ∧ |rq - 2| < 0.1 then 1
  else if (harmonic_type = "all" ∨ harmonic_type = "fifth") ∧ |rq - 1.5| < 0.1 then 0.8
  else if (harmonic_type = "all" ∨ harmonic_type = "fourth") ∧ |rq - 1.33| < 0.1 then 0.7
  else 0

/-- The harmonic_score accumulated by find_harmonics for one candidate. -/
noncomputable def harmonicScore (harmonic_type : String) (base_freqs other_freqs : List ℝ) : ℝ :=
  ∑ i ∈ Finset.range (min base_freqs.length other_freqs.length),
    harmonicContribution harmonic_type base_freqs other_freqs i

/-- One iteration of the candidate loop of find_harmonics. The candidate is
skipped (some none) when it is the base document or has no wave pattern, or
when its harmonic score is not positive. When the score is positive the
Python code indexes base_freqs[0] and other_freqs[0]; an empty frequency
list there would raise, modelled by the none branch of the match. -/
noncomputable def harmonicEntryFor (doc_id : String) (baseWave : WavePattern)
    (harmonic_type : String) (other : LibraryDocument) : Option (Option HarmonicEntry) :=
  if other.id = doc_id then some none
  else
    match other.wave_pattern with
    | none => some none
    | some ow =>
      let score := harmonicScore harmonic_type baseWave.frequencies ow.frequencies
      if 0 < score then
        match baseWave.frequencies, ow.frequencies with
        | bf0 :: _, of0 :: _ =>
          some (some ⟨other.id, other.title, other.category, score,
            _identify_harmonic_type bf0 of0⟩)
        | _, _ => none
      else some none

/-- WaveSearchEngine.find_harmonics of test_library_search.py over the
stored documents in insertion order. Returns some [] when the base id is
unknown or the base document has no wave pattern; a none result models a
raised exception inside the loop. Collected entries are sorted descending
by harmonic score and truncated to the top 10. -/
noncomputable def find_harmonics (doc_id : String) (harmonic_type : String)
    (docs : List LibraryDocument) : Option (List HarmonicEntry) :=
  match docs.find? (fun d => d.id == doc_id) with
  | none => some []
  | some base =>
    match base.wave_pattern with
    | none => some []
    | some baseWave =>
      (collectSome (harmonicEntryFor doc_id baseWave harmonic_type) docs).map
        (fun hs => (List.insertionSort (descBy HarmonicEntry.harmonic_score) hs).take 10)

end WaveSearchEngine

/-- One step of the category grouping loop: append the document to its
category list, creating the category at the end when it is new. -/
def addToCategory (gs : List (String × List LibraryDocument)) (d : LibraryDocument) :
    List (String × List LibraryDocument) :=
  if gs.any (fun g => g.1 == d.category) then
    gs.map (fun g => if g.1 == d.category then (g.1, g.2 ++ [d]) else g)
  else gs ++ [(d.category, [d])]

/-- The category grouping loop shared by Mem8Ingester.ingest_documents and
QdrantIngester.create_resonance_indices: a dict from category to the list
of its documents, categories in first-appearance order, documents in input
order. -/
def groupByCategory (docs : List LibraryDocument) : List (String × List LibraryDocument) :=
  docs.foldl addToCategory []

namespace Mem8Ingester

/-- Mem8Ingester.ingest_documents calls WaveTransformer.calculate_resonance
directly on the optional wave patterns; a missing pattern on either side
raises in Python (None is indexed), modelled as none. -/
noncomputable def resonanceOf (w1 w2 : Option WavePattern) : Option ℝ :=
  match w1, w2 with
  | some a, some b => some (WaveTransformer.calculate_resonance a b)
  | _, _ => none

/-- The inner loop of ingest_documents collecting, for the document at
position i, the (other id, resonance) pairs with resonance above 0.5, in
input order. -/
noncomputable def docResonances (doc : LibraryDocument) (i : ℕ)
    (docs : List LibraryDocument) : Option (List (String × ℝ)) :=
  collectSome
    (fun p =>
      if p.1 = i then some none
      else
        (resonanceOf doc.wave_pattern p.2.wave_pattern).map
          (fun r => if r > 0.5 then some (p.2.id, r) else none))
    docs.enum

/-- The resonance_graph dict built for one category index by
ingest_documents: per document, the top 10 of its above-threshold
resonances sorted descending; documents with no qualifying pair get no
entry. -/
noncomputable def categoryResonanceGraph (docs : List LibraryDocument) :
    Option (List (String × List (String × ℝ))) :=
  collectSome
    (fun p =>
      (docResonances p.2 p.1 docs).map
        (fun rs =>
          if rs.isEmpty then none
          else some (p.2.id, (List.insertionSort (descBy Prod.snd) rs).take 10)))
    docs.enum

/-- Concatenation of the per-category resonance graphs in category order,
as merged by WaveSearchEngine.load_indices. -/
noncomputable def graphOfGroups :
    List (String × List LibraryDocument) → Option (List (String × List (String × ℝ)))
  | [] => some []
  | g :: gs =>
    match categoryResonanceGraph g.2 with
    | none => none
    | some part => (graphOfGroups gs).map (fun rest => part ++ rest)

/-- The union of the resonance_graph dicts written by
Mem8Ingester.ingest_documents across categories. -/
noncomputable def resonance_graph (docs : List LibraryDocument) :
    Option (List (String × List (String × ℝ))) :=
  graphOfGroups (groupByCategory docs)

end Mem8Ingester

namespace QdrantIngester

/-- A resonance record appended by
QdrantIngester.create_resonance_indices. -/
structure ResonanceEntry where
  target_id : String
  resonance : ℝ
  category : String

/-- The inner loop of create_resonance_indices: the qualifying resonance
records of the document at position i (with wave pattern w1) against the
other documents of its category; pattern-less partners are skipped. -/
noncomputable def docResonances (i : ℕ) (w1 : WavePattern) (category : String)
    (docs : List LibraryDocument) : List ResonanceEntry :=
  docs.enum.filterMap (fun q =>
    if q.1 = i then none
    else
      match q.2.wave_pattern with
      | none => none
      | some w2 =>
        let r := WaveTransformer.calculate_resonance w1 w2
        if r > 0.5 then some (⟨q.2.id, r, category⟩ : ResonanceEntry) else none)

/-- The per-category body of create_resonance_indices: documents without a
wave pattern are skipped on both sides of a pair; qualifying resonances
(above 0.5) are sorted descending and the top 20 kept; documents with no
qualifying pair get no entry. -/
noncomputable def categoryEntries (category : String) (docs : List LibraryDocument) :
    List (String × List ResonanceEntry) :=
  docs.enum.filterMap (fun p =>
    match p.2.wave_pattern with
    | none => none
    | some w1 =>
      let rs := docResonances p.1 w1 category docs
      if rs.isEmpty then none
      else some (p.2.id, (List.insertionSort (descBy ResonanceEntry.resonance) rs).take 20))

/-- QdrantIngester.create_resonance_indices of
library_ingestion_qdrant.py: the resonance_data dict over all categories. -/
noncomputable def create_resonance_indices (docs : List LibraryDocument) :
    List (String × List ResonanceEntry) :=
  ((groupByCategory docs).map (fun g => categoryEntries g.1 g.2)).flatten

end QdrantIngester

/-- A one-component wave pattern with no harmonic tags, used as a concrete
instance in the statements below. -/
noncomputable def samplePattern : WavePattern :=
  ⟨[20], [1], [0], [[]]⟩

/-- A concrete stored document in category cat with the given id and
optional wave pattern. -/
noncomputable def sampleDoc (s : String) (wp : Option WavePattern) : LibraryDocument :=
  ⟨s, "t", "p", "c", "d", "cat", wp, 0, 0.5⟩

/-- A concrete two-document store with identical one-component wave
patterns, used as the concrete instance for the graph builders. -/
noncomputable def sampleDocsAB : List LibraryDocument :=
  [sampleDoc "a" (some samplePattern), sampleDoc "b" (some samplePattern)]

/-- A two-component base pattern with first frequency 20. -/
noncomputable def basePatternCX : WavePattern :=
  ⟨[20, 120], [1, 1], [0, 0], [[], []]⟩

/-- A two-component pattern in octave relation to basePatternCX at both
indices. -/
noncomputable def compPatternCX : WavePattern :=
  ⟨[40, 240], [1, 1], [0, 0], [[], []]⟩

/-- A one-component pattern with first frequency 40, in octave relation to
basePatternCX at its only index. -/
noncomputable def targetPatternCX : WavePattern :=
  ⟨[40], [1], [0], [[]]⟩

/-- A harmonics entry against the sample documents: all titles are t, all
categories cat, relationship octave. -/
noncomputable def entryCX (s : String) (sc : ℝ) : WaveSearchEngine.HarmonicEntry :=
  ⟨s, "t", "cat", sc, "octave"⟩

/-- A thirteen-document store: the base document b, eleven two-octave
competitors and the single-octave document t listed last. -/
noncomputable def docsCX : List LibraryDocument :=
  [sampleDoc "b" (some basePatternCX),
   sampleDoc "c1" (some compPatternCX), sampleDoc "c2" (some compPatternCX),
   sampleDoc "c3" (some compPatternCX), sampleDoc "c4" (some compPatternCX),
   sampleDoc "c5" (some compPatternCX), sampleDoc "c6" (some compPatternCX),
   sampleDoc "c7" (some compPatternCX), sampleDoc "c8" (some compPatternCX),
   sampleDoc "c9" (some compPatternCX), sampleDoc "c10" (some compPatternCX),
   sampleDoc "c11" (some compPatternCX),
   sampleDoc "t" (some targetPatternCX)]

/-! ## Helper lemmas -/

theorem getD_map_range {α : Type} (f : ℕ → α) {n i : ℕ} (d : α) (h : i < n) :
    ((List.range n).map f).getD i d = f i := by
  rw [List.getD_eq_getElem?_getD, List.getElem?_map, List.getElem?_range h]
  rfl

theorem collectSome_isSome {α β : Type} {f : α → Option (Option β)} :
    ∀ {l : List α}, (∀ a ∈ l, (f a).isSome) → (collectSome f l).isSome
  | [], _ => rfl
  | x :: xs, h => by
    have hx : (f x).isSome := h x (List.mem_cons_self x xs)
    have hxs : (collectSome f xs).isSome :=
      collectSome_isSome (fun a ha => h a (List.mem_cons_of_mem x ha))
    match hfx : f x with
    | none => rw [hfx] at hx; exact absurd hx (by simp)
    | some none => simpa [collectSome, hfx] using hxs
    | some (some b) =>
      simp only [collectSome, hfx]
      obtain ⟨bs, hbs⟩ := Option.isSome_iff_exists.mp hxs
      simp [hbs]

theorem collectSome_mem_of {α β : Type} {f : α → Option (Option β)} :
    ∀ {l : List α} {bs : List β} {b : β},
      collectSome f l = some bs → b ∈ bs → ∃ a ∈ l, f a = some (some b)
  | [], bs, b, hc, hb => by
    simp only [collectSome, Option.some.injEq] at hc
    subst hc
    exact absurd hb (List.not_mem_nil b)
  | x :: xs, bs, b, hc, hb => by
    match hfx : f x with
    | none => rw [collectSome, hfx] at hc; exact absurd hc (by simp)
    | some none =>
      rw [collectSome, hfx] at hc
      obtain ⟨a, ha, hfa⟩ := collectSome_mem_of hc hb
      exact ⟨a, List.mem_cons_of_mem x ha, hfa⟩
    | some (some c) =>
      rw [collectSome, hfx] at hc
      match hxs : collectSome f xs with
      | none => rw [hxs] at hc; exact absurd hc (by simp)
      | some bs2 =>
        rw [hxs] at hc
        simp only [Option.map_some', Option.some.injEq] at hc
        subst hc
        rcases List.mem_cons.mp hb with hb | hb
        · exact ⟨x, List.mem_cons_self x xs, by rw [hfx, hb]⟩
        · obtain ⟨a, ha, hfa⟩ := collectSome_mem_of hxs hb
          exact ⟨a, List.mem_cons_of_mem x ha, hfa⟩

theorem collectSome_mem {α β : Type} {f : α → Option (Option β)} :
    ∀ {l : List α} {bs : List β} {a : α} {b : β},
      a ∈ l → f a = some (some b) → collectSome f l = some bs → b ∈ bs
  | [], _, _, _, ha, _, _ => absurd ha (List.not_mem_nil _)
  | x :: xs, bs, a, b, ha, hfa, hc => by
    match hfx : f x with
    | none => rw [collectSome, hfx] at hc; exact absurd hc (by simp)
    | some none =>
      rw [collectSome, hfx] at hc
      rcases List.mem_cons.mp ha with rfl | ha2
      · rw [hfa] at hfx; exact absurd hfx (by simp)
      · exact collectSome_mem ha2 hfa hc
    | some (some c) =>
      rw [collectSome, hfx] at hc
      match hxs : collectSome f xs with
      | none => rw [hxs] at hc; exact absurd hc (by simp)
      | some bs2 =>
        rw [hxs] at hc
        simp only [Option.map_some', Option.some.injEq] at hc
        subst hc
        rcases List.mem_cons.mp ha with rfl | ha2
        · rw [hfa] at hfx
          simp only [Option.some.injEq] at hfx
          exact hfx ▸ List.mem_cons_self c bs2
        · exact List.mem_cons_of_mem c (collectSome_mem ha2 hfa hxs)

theorem collectSome_length {α β : Type} {f : α → Option (Option β)} :
    ∀ {l : List α} {bs : List β}, collectSome f l = some bs → bs.length ≤ l.length
  | [], bs, hc => by
    simp only [collectSome, Option.some.injEq] at hc
    simp [← hc]
  | x :: xs, bs, hc => by
    match hfx : f x with
    | none => rw [collectSome, hfx] at hc; exact absurd hc (by simp)
    | some none =>
      rw [collectSome, hfx] at hc
      exact le_trans (collectSome_length hc) (Nat.le_succ _)
    | some (some c) =>
      rw [collectSome, hfx] at hc
      match hxs : collectSome f xs with
      | none => rw [hxs] at hc; exact absurd hc (by simp)
      | some bs2 =>
        rw [hxs] at hc
        simp only [Option.map_some', Option.some.injEq] at hc
        subst hc
        simpa using Nat.succ_le_succ (collectSome_length hxs)

theorem collectSome_length_lt {α β : Type} {f : α → Option (Option β)} :
    ∀ {l : List α} {bs : List β} {a : α},
      a ∈ l → f a = some none → collectSome f l = some bs → bs.length < l.length
  | [], _, _, ha, _, _ => absurd ha (List.not_mem_nil _)
  | x :: xs, bs, a, ha, hfa, hc => by
    match hfx : f x with
    | none => rw [collectSome, hfx] at hc; exact absurd hc (by simp)
    | some none =>
      rw [collectSome, hfx] at hc
      exact Nat.lt_succ_of_le (collectSome_length hc)
    | some (some c) =>
      rw [collectSome, hfx] at hc
      match hxs : collectSome f xs with
      | none => rw [hxs] at hc; exact absurd hc (by simp)
      | some bs2 =>
        rw [hxs] at hc
        simp only [Option.map_some', Option.some.injEq] at hc
        subst hc
        rcases List.mem_cons.mp ha with rfl | ha2
        · rw [hfa] at hfx; exact absurd hfx (by simp)
        · simpa using Nat.succ_lt_succ (collectSome_length_lt ha2 hfa hxs)

/-! ## Properties of the wave transform -/

theorem freqOf_mono {i j : ℕ} (h : i ≤ j) : WaveTransformer.freqOf i ≤ WaveTransformer.freqOf j := by
  unfold WaveTransformer.freqOf
  have : (i : ℝ) ≤ (j : ℝ) := Nat.cast_le.mpr h
  exact min_le_min (by nlinarith) le_rfl

theorem freqOf_le_20000 (i : ℕ) : WaveTransformer.freqOf i ≤ 20000 :=
  min_le_right _ _

/-- Claim C5: vector_to_wave is total, produces frequency, amplitude and
phase lists of the input length, with non-decreasing frequencies capped at
20000, and maps the empty vector to the empty wave pattern. -/
theorem C5_vector_to_wave_shape :
    (∀ v : List ℝ,
      (WaveTransformer.vector_to_wave v).frequencies.length = v.length ∧
      (WaveTransformer.vector_to_wave v).amplitudes.length = v.length ∧
      (WaveTransformer.vector_to_wave v).phases.length = v.length ∧
      List.Sorted (· ≤ ·) (WaveTransformer.vector_to_wave v).frequencies ∧
      (∀ f ∈ (WaveTransformer.vector_to_wave v).frequencies, f ≤ 20000)) ∧
    WaveTransformer.vector_to_wave ([] : List ℝ) = ⟨[], [], [], []⟩ := by
  constructor
  · intro v
    refine ⟨by simp [WaveTransformer.vector_to_wave], by simp [WaveTransformer.vector_to_wave],
      by simp [WaveTransformer.vector_to_wave], ?_, ?_⟩
    · unfold WaveTransformer.vector_to_wave
      simp only [List.Sorted, List.pairwise_map]
      exact (List.pairwise_lt_range _).imp (fun h => freqOf_mono (Nat.le_of_lt h))
    · intro f hf
      simp only [WaveTransformer.vector_to_wave, List.mem_map] at hf
      obtain ⟨i, _, rfl⟩ := hf
      exact freqOf_le_20000 i
  · rfl

/-- Witness for C5 at the concrete vector [1, -1]. -/
theorem C5_vector_to_wave_shape_witness :
    (WaveTransformer.vector_to_wave [(1 : ℝ), -1]).frequencies.length = 2 ∧
    List.Sorted (· ≤ ·) (WaveTransformer.vector_to_wave [(1 : ℝ), -1]).frequencies ∧
    ∀ f ∈ (WaveTransformer.vector_to_wave [(1 : ℝ), -1]).frequencies, f ≤ 20000 := by
  obtain ⟨h1, -, -, h4, h5⟩ := C5_vector_to_wave_shape.1 [(1 : ℝ), -1]
  exact ⟨h1, h4, h5⟩

/-! ## Reflexivity of the query-time scorer -/

theorem searchComponent_self (w : WavePattern) (t v : ℝ) (p : String) (i : ℕ)
    (hp : p = "balanced") :
    WaveSearchEngine.componentAt w w ⟨"focused", t, v, p⟩ i = 1 := by
  subst hp
  have hb1 : (("balanced" : String) = "octaves") = False := by simp
  have hb2 : (("balanced" : String) = "fifths") = False := by simp
  have hb3 : (("balanced" : String) = "dissonant") = False := by simp
  have he1 : (("focused" : String) = "raw") = False := by simp
  have he2 : (("focused" : String) = "graceland") = False := by simp
  have he3 : (("focused" : String) = "happy") = False := by simp
  simp only [WaveSearchEngine.componentAt, hb1, hb2, hb3, he1, he2, he3, false_and, if_false,
    sub_self, abs_zero, Real.cos_zero]
  norm_num

theorem search_resonance_self (w : WavePattern) (t v : ℝ) (h : w.frequencies ≠ []) :
    WaveSearchEngine.calculate_resonance w w ⟨"focused", t, v, "balanced"⟩ = 1 := by
  have hl : w.frequencies.length ≠ 0 := fun h0 => h (List.length_eq_zero.mp h0)
  unfold WaveSearchEngine.calculate_resonance
  simp only [Nat.min_self]
  rw [if_neg hl, Finset.sum_congr rfl (fun i _ => searchComponent_self w t v _ i rfl)]
  simp only [Finset.sum_const, Finset.card_range, nsmul_eq_mul, mul_one]
  exact div_self (Nat.cast_ne_zero.mpr hl)

/-- Claim C6: with emotional_state focused and harmonic_preference
balanced, the query-time scorer gives any non-empty wave pattern resonance
exactly 1 with itself. -/
theorem C6_query_scorer_reflexive (w : WavePattern) (t v : ℝ) (h : w.frequencies ≠ []) :
    WaveSearchEngine.calculate_resonance w w ⟨"focused", t, v, "balanced"⟩ = 1 :=
  search_resonance_self w t v h

/-- Witness for C6 at a concrete one-component wave pattern. -/
theorem C6_query_scorer_reflexive_witness :
    (⟨[20], [1], [0], []⟩ : WavePattern).frequencies ≠ [] ∧
    WaveSearchEngine.calculate_resonance ⟨[20], [1], [0], []⟩ ⟨[20], [1], [0], []⟩
      ⟨"focused", 1, 0.5, "balanced"⟩ = 1 :=
  ⟨by simp, C6_query_scorer_reflexive ⟨[20], [1], [0], []⟩ 1 0.5 (by simp)⟩

/-! ## Raw emotional state scales the focused score by 2 * truth_amplification -/

theorem searchComponent_raw (w1 w2 : WavePattern) (t v : ℝ) (p : String) (i : ℕ) :
    WaveSearchEngine.componentAt w1 w2 ⟨"raw", t, v, p⟩ i =
      2 * t * WaveSearchEngine.componentAt w1 w2 ⟨"focused", t, v, p⟩ i := by
  have he1 : (("focused" : String) = "raw") = False := by simp
  have he2 : (("focused" : String) = "graceland") = False := by simp
  have he3 : (("focused" : String) = "happy") = False := by simp
  have hr1 : (("raw" : String) = "raw") = True := by simp
  simp only [WaveSearchEngine.componentAt, he1, he2, he3, hr1, if_false, if_true]
  ring

theorem search_resonance_raw (w1 w2 : WavePattern) (t v : ℝ) (p : String) :
    WaveSearchEngine.calculate_resonance w1 w2 ⟨"raw", t, v, p⟩ =
      2 * t * WaveSearchEngine.calculate_resonance w1 w2 ⟨"focused", t, v, p⟩ := by
  unfold WaveSearchEngine.calculate_resonance
  by_cases hn : min w1.frequencies.length w2.frequencies.length = 0
  · rw [if_pos hn, if_pos hn, mul_zero]
  · rw [if_neg hn, if_neg hn,
      Finset.sum_congr rfl (fun i _ => searchComponent_raw w1 w2 t v p i), ← Finset.mul_sum,
      mul_div_assoc]

/-- Claim C7: with the same harmonic preference and truth_amplification at
least 1, a strictly positive focused score is strictly exceeded by the raw
score (raw scales every component by 2 * truth_amplification). -/
theorem C7_raw_exceeds_focused (w1 w2 : WavePattern) (t v : ℝ) (p : String)
    (ht : 1 ≤ t) (hpos : 0 < WaveSearchEngine.calculate_resonance w1 w2 ⟨"focused", t, v, p⟩) :
    WaveSearchEngine.calculate_resonance w1 w2 ⟨"focused", t, v, p⟩ <
      WaveSearchEngine.calculate_resonance w1 w2 ⟨"raw", t, v, p⟩ := by
  rw [search_resonance_raw w1 w2 t v p]
  have h2t : 1 < 2 * t := by linarith
  exact (lt_mul_iff_one_lt_left hpos).mpr h2t

/-- Witness for C7 at a concrete one-component wave pattern, whose focused
balanced self-resonance is 1. -/
theorem C7_raw_exceeds_focused_witness :
    (1 : ℝ) ≤ 1 ∧
    0 < WaveSearchEngine.calculate_resonance ⟨[20], [1], [0], []⟩ ⟨[20], [1], [0], []⟩
      ⟨"focused", 1, 0.5, "balanced"⟩ ∧
    WaveSearchEngine.calculate_resonance ⟨[20], [1], [0], []⟩ ⟨[20], [1], [0], []⟩
      ⟨"focused", 1, 0.5, "balanced"⟩ <
      WaveSearchEngine.calculate_resonance ⟨[20], [1], [0], []⟩ ⟨[20], [1], [0], []⟩
      ⟨"raw", 1, 0.5, "balanced"⟩ := by
  have h1 : WaveSearchEngine.calculate_resonance ⟨[20], [1], [0], []⟩ ⟨[20], [1], [0], []⟩
      ⟨"focused", 1, 0.5, "balanced"⟩ = 1 :=
    search_resonance_self ⟨[20], [1], [0], []⟩ 1 0.5 (by simp)
  have hpos : 0 < WaveSearchEngine.calculate_resonance ⟨[20], [1], [0], []⟩ ⟨[20], [1], [0], []⟩
      ⟨"focused", 1, 0.5, "balanced"⟩ := by rw [h1]; norm_num
  exact ⟨le_refl 1, hpos,
    C7_raw_exceeds_focused ⟨[20], [1], [0], []⟩ ⟨[20], [1], [0], []⟩ 1 0.5 "balanced"
      (le_refl 1) hpos⟩

/-! ## Symmetry of the ingestion-time scorer -/

theorem ingestComponent_symm (w1 w2 : WavePattern) (i : ℕ)
    (hh : w1.harmonics.getD i [] = w2.harmonics.getD i []) :
    WaveTransformer.componentAt w1 w2 i = WaveTransformer.componentAt w2 w1 i := by
  simp only [WaveTransformer.componentAt, hh]
  rw [abs_sub_comm (w1.frequencies.getD i 0) (w2.frequencies.getD i 0),
    abs_sub_comm (w1.amplitudes.getD i 0) (w2.amplitudes.getD i 0),
    abs_sub_comm (w1.phases.getD i 0) (w2.phases.getD i 0)]

theorem ingest_resonance_symm_of (w1 w2 : WavePattern)
    (hh : ∀ i < min w1.frequencies.length w2.frequencies.length,
      w1.harmonics.getD i [] = w2.harmonics.getD i []) :
    WaveTransformer.calculate_resonance w1 w2 = WaveTransformer.calculate_resonance w2 w1 := by
  unfold WaveTransformer.calculate_resonance
  rw [Nat.min_comm w2.frequencies.length w1.frequencies.length]
  by_cases hn : min w1.frequencies.length w2.frequencies.length = 0
  · rw [if_pos hn, if_pos hn]
  · rw [if_neg hn, if_neg hn,
      Finset.sum_congr rfl
        (fun i hi => ingestComponent_symm w1 w2 i (hh i (Finset.mem_range.mp hi)))]

theorem vector_to_wave_harmonics_getD (v : List ℝ) {i : ℕ} (h : i < v.length) :
    (WaveTransformer.vector_to_wave v).harmonics.getD i [] = WaveTransformer.harmonicsAt i := by
  simp only [WaveTransformer.vector_to_wave]
  exact getD_map_range WaveTransformer.harmonicsAt [] h

/-- Claim C3: the ingestion-time scorer is symmetric on wave patterns (the
patterns produced by the wave transform, whose harmonic tags at any shared
index agree because they depend only on the index). -/
theorem C3_ingest_resonance_symm (v w : List ℝ) :
    WaveTransformer.calculate_resonance (WaveTransformer.vector_to_wave v)
        (WaveTransformer.vector_to_wave w) =
      WaveTransformer.calculate_resonance (WaveTransformer.vector_to_wave w)
        (WaveTransformer.vector_to_wave v) := by
  apply ingest_resonance_symm_of
  intro i hi
  have hlen : min (WaveTransformer.vector_to_wave v).frequencies.length
      (WaveTransformer.vector_to_wave w).frequencies.length = min v.length w.length := by
    simp [WaveTransformer.vector_to_wave]
  rw [hlen] at hi
  rw [vector_to_wave_harmonics_getD v (lt_of_lt_of_le hi (Nat.min_le_left _ _)),
    vector_to_wave_harmonics_getD w (lt_of_lt_of_le hi (Nat.min_le_right _ _))]

/-! ## The two scorers: agreement and disagreement -/

theorem componentAt_agree (a b : WavePattern) (t v : ℝ) (i : ℕ)
    (h1 : WaveTransformer.harmonicBonus (a.harmonics.getD i []) (b.harmonics.getD i []) = 1) :
    WaveTransformer.componentAt a b i =
      WaveSearchEngine.componentAt a b ⟨"focused", t, v, "balanced"⟩ i := by
  have hb1 : (("balanced" : String) = "octaves") = False := by simp
  have hb2 : (("balanced" : String) = "fifths") = False := by simp
  have hb3 : (("balanced" : String) = "dissonant") = False := by simp
  have he1 : (("focused" : String) = "raw") = False := by simp
  have he2 : (("focused" : String) = "graceland") = False := by simp
  have he3 : (("focused" : String) = "happy") = False := by simp
  simp only [WaveTransformer.componentAt, WaveSearchEngine.componentAt, h1, hb1, hb2, hb3,
    he1, he2, he3, false_and, if_false, mul_one]

/-- Claim C1, amended: the ingestion-time scorer and the query-time scorer
under a neutral context (focused, balanced) agree whenever no compared
index carries shared harmonic tags (tag bonus 1); the query-time variant
omits the tag-based bonus of step 4, so the two only share steps 1 to 3. -/
theorem C1_scorers_agree_without_shared_tags (a b : WavePattern) (t v : ℝ)
    (hb : ∀ i < min a.frequencies.length b.frequencies.length,
      WaveTransformer.harmonicBonus (a.harmonics.getD i []) (b.harmonics.getD i []) = 1) :
    WaveTransformer.calculate_resonance a b =
      WaveSearchEngine.calculate_resonance a b ⟨"focused", t, v, "balanced"⟩ := by
  unfold WaveTransformer.calculate_resonance WaveSearchEngine.calculate_resonance
  by_cases hn : min a.frequencies.length b.frequencies.length = 0
  · rw [if_pos hn, if_pos hn]
  · rw [if_neg hn, if_neg hn,
      Finset.sum_congr rfl
        (fun i hi => componentAt_agree a b t v i (hb i (Finset.mem_range.mp hi)))]

/-- Witness for the amended C1 at a concrete tag-free pattern pair. -/
theorem C1_scorers_agree_without_shared_tags_witness :
    (∀ i < min (⟨[20], [1], [0], [[]]⟩ : WavePattern).frequencies.length
        (⟨[20], [1], [0], [[]]⟩ : WavePattern).frequencies.length,
      WaveTransformer.harmonicBonus
        ((⟨[20], [1], [0], [[]]⟩ : WavePattern).harmonics.getD i [])
        ((⟨[20], [1], [0], [[]]⟩ : WavePattern).harmonics.getD i []) = 1) ∧
    WaveTransformer.calculate_resonance ⟨[20], [1], [0], [[]]⟩ ⟨[20], [1], [0], [[]]⟩ =
      WaveSearchEngine.calculate_resonance ⟨[20], [1], [0], [[]]⟩ ⟨[20], [1], [0], [[]]⟩
        ⟨"focused", 1, 0.5, "balanced"⟩ := by
  have hb : ∀ i < min (⟨[20], [1], [0], [[]]⟩ : WavePattern).frequencies.length
      (⟨[20], [1], [0], [[]]⟩ : WavePattern).frequencies.length,
      WaveTransformer.harmonicBonus
        ((⟨[20], [1], [0], [[]]⟩ : WavePattern).harmonics.getD i [])
        ((⟨[20], [1], [0], [[]]⟩ : WavePattern).harmonics.getD i []) = 1 := by
    intro i hi
    have h0 : i = 0 := by
      simp only [List.length_cons, List.length_nil, Nat.min_self] at hi
      omega
    subst h0
    rfl
  exact ⟨hb, C1_scorers_agree_without_shared_tags _ _ 1 0.5 hb⟩

theorem freqOf_small (i : ℕ) (h : i ≤ 100) : WaveTransformer.freqOf i = 20 + (i : ℝ) * 100 := by
  unfold WaveTransformer.freqOf
  apply min_eq_left
  have hi : (i : ℝ) ≤ 100 := by exact_mod_cast h
  nlinarith

theorem tagFor_3_0 : WaveTransformer.tagFor 3 0 = none := by
  unfold WaveTransformer.tagFor WaveTransformer.classifyInterval
  rw [freqOf_small 3 (by norm_num), freqOf_small 0 (by norm_num)]
  norm_num [abs_lt]

theorem tagFor_3_1 : WaveTransformer.tagFor 3 1 = none := by
  unfold WaveTransformer.tagFor WaveTransformer.classifyInterval
  rw [freqOf_small 3 (by norm_num), freqOf_small 1 (by norm_num)]
  norm_num [abs_lt]

theorem tagFor_3_2 : WaveTransformer.tagFor 3 2 = some (2, "fifth") := by
  unfold WaveTransformer.tagFor WaveTransformer.classifyInterval
  rw [freqOf_small 3 (by norm_num), freqOf_small 2 (by norm_num)]
  norm_num [abs_lt]

theorem harmonicsAt_3 : WaveTransformer.harmonicsAt 3 = [(2, "fifth")] := by
  unfold WaveTransformer.harmonicsAt
  have hr : List.range 3 = [0, 1, 2] := rfl
  rw [hr]
  simp only [List.filterMap_cons, List.filterMap_nil, tagFor_3_0, tagFor_3_1, tagFor_3_2]

theorem ingestComponent_self (w : WavePattern) (i : ℕ) :
    WaveTransformer.componentAt w w i =
      WaveTransformer.harmonicBonus (w.harmonics.getD i []) (w.harmonics.getD i []) := by
  simp only [WaveTransformer.componentAt, sub_self, abs_zero, Real.cos_zero]
  norm_num

theorem harmonicBonus_nil : WaveTransformer.harmonicBonus [] [] = 1 := rfl

theorem harmonicBonus_fifth :
    WaveTransformer.harmonicBonus [(2, "fifth")] [(2, "fifth")] = 1.3 := by
  simp [WaveTransformer.harmonicBonus, WaveTransformer.labelFactor]

theorem ingest_resonance_w4 :
    WaveTransformer.calculate_resonance (WaveTransformer.vector_to_wave [1, 1, 1, 1])
      (WaveTransformer.vector_to_wave [1, 1, 1, 1]) = 4.3 / 4 := by
  have hlen : (WaveTransformer.vector_to_wave [(1 : ℝ), 1, 1, 1]).frequencies.length = 4 := by
    simp [WaveTransformer.vector_to_wave]
  have hharm : ∀ i, i < 4 →
      (WaveTransformer.vector_to_wave [(1 : ℝ), 1, 1, 1]).harmonics.getD i [] =
        WaveTransformer.harmonicsAt i := by
    intro i hi
    exact vector_to_wave_harmonics_getD [(1 : ℝ), 1, 1, 1] (by simpa using hi)
  have hcomp : ∀ i, i < 4 →
      WaveTransformer.componentAt (WaveTransformer.vector_to_wave [(1 : ℝ), 1, 1, 1])
        (WaveTransformer.vector_to_wave [(1 : ℝ), 1, 1, 1]) i =
        WaveTransformer.harmonicBonus (WaveTransformer.harmonicsAt i)
          (WaveTransformer.harmonicsAt i) := by
    intro i hi
    rw [ingestComponent_self, hharm i hi]
  have h0 : WaveTransformer.harmonicsAt 0 = [] := rfl
  have h1 : WaveTransformer.harmonicsAt 1 = [] := by
    unfold WaveTransformer.harmonicsAt
    have hr : List.range 1 = [0] := rfl
    rw [hr]
    have ht : WaveTransformer.tagFor 1 0 = none := by
      unfold WaveTransformer.tagFor WaveTransformer.classifyInterval
      rw [freqOf_small 1 (by norm_num), freqOf_small 0 (by norm_num)]
      norm_num [abs_lt]
    simp only [List.filterMap_cons, List.filterMap_nil, ht]
  have h2 : WaveTransformer.harmonicsAt 2 = [] := by
    unfold WaveTransformer.harmonicsAt
    have hr : List.range 2 = [0, 1] := rfl
    rw [hr]
    have ht0 : WaveTransformer.tagFor 2 0 = none := by
      unfold WaveTransformer.tagFor WaveTransformer.classifyInterval
      rw [freqOf_small 2 (by norm_num), freqOf_small 0 (by norm_num)]
      norm_num [abs_lt]
    have ht1 : WaveTransformer.tagFor 2 1 = none := by
      unfold WaveTransformer.tagFor WaveTransformer.classifyInterval
      rw [freqOf_small 2 (by norm_num), freqOf_small 1 (by norm_num)]
      norm_num [abs_lt]
    simp only [List.filterMap_cons, List.filterMap_nil, ht0, ht1]
  unfold WaveTransformer.calculate_resonance
  rw [hlen]
  simp only [Nat.min_self]
  norm_num
  rw [Finset.sum_range_succ, Finset.sum_range_succ, Finset.sum_range_succ,
    Finset.sum_range_succ, Finset.sum_range_zero, hcomp 0 (by norm_num),
    hcomp 1 (by norm_num), hcomp 2 (by norm_num), hcomp 3 (by norm_num),
    h0, h1, h2, harmonicsAt_3, harmonicBonus_nil, harmonicBonus_fifth]
  norm_num

/-- Counterexample to C1 as stated: on the transform of [1, 1, 1, 1] the
two scorers differ under the neutral context, because index 3 carries the
shared tag (2, fifth) that only the ingestion-time scorer rewards. -/
theorem C1_counterexample :
    WaveTransformer.calculate_resonance (WaveTransformer.vector_to_wave [1, 1, 1, 1])
        (WaveTransformer.vector_to_wave [1, 1, 1, 1]) ≠
      WaveSearchEngine.calculate_resonance (WaveTransformer.vector_to_wave [1, 1, 1, 1])
        (WaveTransformer.vector_to_wave [1, 1, 1, 1]) ⟨"focused", 1, 0.5, "balanced"⟩ := by
  rw [ingest_resonance_w4,
    search_resonance_self (WaveTransformer.vector_to_wave [1, 1, 1, 1]) 1 0.5
      (by simp [WaveTransformer.vector_to_wave])]
  norm_num

/-! ## The search pipeline and its re-ranking pass -/

/-- Claim C8: the search pipeline re-ranks exactly when the result set is
non-empty and the harmonic preference is not balanced: every result other
than the top one whose id is among the top result's graph neighbors has
its score multiplied by (1 + neighbor_score * 0.5), all other results are
unchanged, the list is re-sorted descending and only then truncated to
top_k; with a balanced preference or an empty result set the sorted
results are truncated unchanged. -/
theorem C8_search_rerank (qw : WavePattern) (ctx : SearchContext)
    (docs : List LibraryDocument) (graph : List (String × List (String × ℝ)))
    (cf : Option String) (k : ℕ) :
    (ctx.harmonic_preference = "balanced" →
      WaveSearchEngine.search qw ctx docs graph cf k =
        (List.insertionSort (descBy WaveSearchEngine.SearchResult.resonance)
          (WaveSearchEngine.scoredResults qw ctx docs cf)).take k) ∧
    (List.insertionSort (descBy WaveSearchEngine.SearchResult.resonance)
        (WaveSearchEngine.scoredResults qw ctx docs cf) = [] →
      WaveSearchEngine.search qw ctx docs graph cf k = []) ∧
    (∀ top rest, ctx.harmonic_preference ≠ "balanced" →
      List.insertionSort (descBy WaveSearchEngine.SearchResult.resonance)
          (WaveSearchEngine.scoredResults qw ctx docs cf) = top :: rest →
      WaveSearchEngine.search qw ctx docs graph cf k =
        (List.insertionSort (descBy WaveSearchEngine.SearchResult.resonance)
          (top :: rest.map (fun res =>
            match WaveSearchEngine.dictLookup ((List.lookup top.id graph).getD []) res.id with
            | some s => { res with resonance := res.resonance * (1 + s * 0.5) }
            | none => res))).take k) := by
  refine ⟨?_, ?_, ?_⟩
  · intro hb
    cases hL : List.insertionSort (descBy WaveSearchEngine.SearchResult.resonance)
        (WaveSearchEngine.scoredResults qw ctx docs cf) with
    | nil => simp [WaveSearchEngine.search, hL]
    | cons top rest => simp [WaveSearchEngine.search, hL, hb]
  · intro hnil
    simp [WaveSearchEngine.search, hnil]
  · intro top rest hnb hL
    cases hlk : List.lookup top.id graph with
    | some ns =>
      simp only [WaveSearchEngine.search, hL, if_neg hnb, hlk, Option.getD_some]
      rfl
    | none =>
      have hmap : rest.map (fun res =>
          match WaveSearchEngine.dictLookup ((none : Option (List (String × ℝ))).getD [])
            res.id with
          | some s => { res with resonance := res.resonance * (1 + s * 0.5) }
          | none => res) = rest := by
        simp [WaveSearchEngine.dictLookup]
      have hsorted : List.Sorted (descBy WaveSearchEngine.SearchResult.resonance)
          (top :: rest) := hL ▸ List.sorted_insertionSort _ _
      simp only [WaveSearchEngine.search, hL, if_neg hnb, hlk, hmap,
        hsorted.insertionSort_eq]

/-- Witness for C8 in the balanced branch at concrete inputs. -/
theorem C8_search_rerank_witness :
    (⟨"focused", 1, 0.5, "balanced"⟩ : SearchContext).harmonic_preference = "balanced" ∧
    WaveSearchEngine.search ⟨[20], [1], [0], []⟩ ⟨"focused", 1, 0.5, "balanced"⟩
        [⟨"a", "t", "p", "c", "d", "cat", some ⟨[20], [1], [0], []⟩, 0, 0.5⟩] [] none 10 =
      (List.insertionSort (descBy WaveSearchEngine.SearchResult.resonance)
        (WaveSearchEngine.scoredResults ⟨[20], [1], [0], []⟩ ⟨"focused", 1, 0.5, "balanced"⟩
          [⟨"a", "t", "p", "c", "d", "cat", some ⟨[20], [1], [0], []⟩, 0, 0.5⟩] none)).take 10 :=
  ⟨rfl,
    (C8_search_rerank ⟨[20], [1], [0], []⟩ ⟨"focused", 1, 0.5, "balanced"⟩
      [⟨"a", "t", "p", "c", "d", "cat", some ⟨[20], [1], [0], []⟩, 0, 0.5⟩] [] none 10).1 rfl⟩

/-! ## Structure of the two resonance-graph builders -/

theorem addToCategory_mem {gs : List (String × List LibraryDocument)} {d : LibraryDocument}
    {grp : String × List LibraryDocument} {x : LibraryDocument}
    (hgrp : grp ∈ addToCategory gs d) (hx : x ∈ grp.2) :
    (∃ g ∈ gs, x ∈ g.2) ∨ x = d := by
  unfold addToCategory at hgrp
  by_cases hany : gs.any (fun g => g.1 == d.category)
  · rw [if_pos hany] at hgrp
    obtain ⟨g, hg, hfg⟩ := List.mem_map.mp hgrp
    by_cases hcat : g.1 == d.category
    · rw [if_pos hcat] at hfg
      rw [← hfg] at hx
      rcases List.mem_append.mp hx with hx2 | hx2
      · exact Or.inl ⟨g, hg, hx2⟩
      · exact Or.inr (List.mem_singleton.mp hx2)
    · rw [if_neg hcat] at hfg
      exact Or.inl ⟨g, hg, hfg ▸ hx⟩
  · rw [if_neg hany] at hgrp
    rcases List.mem_append.mp hgrp with hg | hg
    · exact Or.inl ⟨grp, hg, hx⟩
    · have : grp = (d.category, [d]) := List.mem_singleton.mp hg
      rw [this] at hx
      exact Or.inr (List.mem_singleton.mp hx)

theorem foldl_addToCategory_mem :
    ∀ (ds : List LibraryDocument) (gs : List (String × List LibraryDocument))
      {grp : String × List LibraryDocument} {x : LibraryDocument},
      grp ∈ ds.foldl addToCategory gs → x ∈ grp.2 → (∃ g ∈ gs, x ∈ g.2) ∨ x ∈ ds
  | [], _, _, _, hgrp, hx => Or.inl ⟨_, hgrp, hx⟩
  | d :: ds, gs, grp, x, hgrp, hx => by
    rw [List.foldl_cons] at hgrp
    rcases foldl_addToCategory_mem ds (addToCategory gs d) hgrp hx with h | h
    · obtain ⟨g, hg, hxg⟩ := h
      rcases addToCategory_mem hg hxg with h2 | h2
      · exact Or.inl h2
      · exact Or.inr (h2 ▸ List.mem_cons_self d ds)
    · exact Or.inr (List.mem_cons_of_mem d h)

theorem groupByCategory_mem {docs : List LibraryDocument}
    {grp : String × List LibraryDocument} {x : LibraryDocument}
    (hgrp : grp ∈ groupByCategory docs) (hx : x ∈ grp.2) : x ∈ docs := by
  rcases foldl_addToCategory_mem docs [] hgrp hx with ⟨g, hg, -⟩ | h
  · exact absurd hg (List.not_mem_nil g)
  · exact h

theorem qdrant_docResonances_mem {i : ℕ} {w1 : WavePattern} {cat : String}
    {ds : List LibraryDocument} {e : QdrantIngester.ResonanceEntry}
    (he : e ∈ QdrantIngester.docResonances i w1 cat ds) :
    (0.5 : ℝ) < e.resonance ∧ ∃ d ∈ ds, d.wave_pattern.isSome ∧ e.target_id = d.id := by
  obtain ⟨q, hq, hfq⟩ := List.mem_filterMap.mp he
  by_cases hqi : q.1 = i
  · rw [if_pos hqi] at hfq
    exact absurd hfq (by simp)
  · rw [if_neg hqi] at hfq
    cases hwp : q.2.wave_pattern with
    | none => simp only [hwp] at hfq; exact absurd hfq (by simp)
    | some w2 =>
      simp only [hwp] at hfq
      by_cases hr : WaveTransformer.calculate_resonance w1 w2 > 0.5
      · rw [if_pos hr] at hfq
        simp only [Option.some.injEq] at hfq
        refine ⟨?_, q.2, List.snd_mem_of_mem_enum hq, by rw [hwp]; rfl, ?_⟩
        · rw [← hfq]; exact hr
        · rw [← hfq]
      · rw [if_neg hr] at hfq
        exact absurd hfq (by simp)

theorem qdrant_categoryEntries_mem {cat : String} {ds : List LibraryDocument}
    {p : String × List QdrantIngester.ResonanceEntry}
    (hp : p ∈ QdrantIngester.categoryEntries cat ds) :
    (∃ d ∈ ds, d.wave_pattern.isSome ∧ p.1 = d.id) ∧
    ∃ i w1, p.2 =
      (List.insertionSort (descBy QdrantIngester.ResonanceEntry.resonance)
        (QdrantIngester.docResonances i w1 cat ds)).take 20 := by
  obtain ⟨q, hq, hfq⟩ := List.mem_filterMap.mp hp
  cases hwp : q.2.wave_pattern with
  | none => simp only [hwp] at hfq; exact absurd hfq (by simp)
  | some w1 =>
    simp only [hwp] at hfq
    by_cases hemp : (QdrantIngester.docResonances q.1 w1 cat ds).isEmpty
    · rw [if_pos hemp] at hfq
      exact absurd hfq (by simp)
    · rw [if_neg hemp] at hfq
      simp only [Option.some.injEq] at hfq
      refine ⟨⟨q.2, List.snd_mem_of_mem_enum hq, by rw [hwp]; rfl, by rw [← hfq]⟩,
        q.1, w1, by rw [← hfq]⟩

theorem create_resonance_indices_mem {docs : List LibraryDocument}
    {p : String × List QdrantIngester.ResonanceEntry}
    (hp : p ∈ QdrantIngester.create_resonance_indices docs) :
    ∃ grp ∈ groupByCategory docs, p ∈ QdrantIngester.categoryEntries grp.1 grp.2 := by
  unfold QdrantIngester.create_resonance_indices at hp
  obtain ⟨l, hl, hpl⟩ := List.mem_flatten.mp hp
  obtain ⟨grp, hgrp, hfl⟩ := List.mem_map.mp hl
  exact ⟨grp, hgrp, hfl ▸ hpl⟩

theorem resonanceOf_isSome {w1 w2 : Option WavePattern} {r : ℝ}
    (h : Mem8Ingester.resonanceOf w1 w2 = some r) : w1.isSome ∧ w2.isSome := by
  cases w1 with
  | none => cases w2 <;> simp [Mem8Ingester.resonanceOf] at h
  | some a =>
    cases w2 with
    | none => simp [Mem8Ingester.resonanceOf] at h
    | some b => exact ⟨rfl, rfl⟩

theorem mem8_docResonances_mem {doc : LibraryDocument} {i : ℕ} {docs : List LibraryDocument}
    {rs : List (String × ℝ)} {e : String × ℝ}
    (hdr : Mem8Ingester.docResonances doc i docs = some rs) (he : e ∈ rs) :
    (0.5 : ℝ) < e.2 ∧ ∃ d ∈ docs, d.wave_pattern.isSome ∧ e.1 = d.id := by
  obtain ⟨q, hq, hfq⟩ := collectSome_mem_of hdr he
  by_cases hqi : q.1 = i
  · rw [if_pos hqi] at hfq
    exact absurd hfq (by simp)
  · rw [if_neg hqi] at hfq
    cases hro : Mem8Ingester.resonanceOf doc.wave_pattern q.2.wave_pattern with
    | none => rw [hro] at hfq; exact absurd hfq (by simp)
    | some r =>
      rw [hro] at hfq
      simp only [Option.map_some'] at hfq
      by_cases hr5 : r > 0.5
      · rw [if_pos hr5] at hfq
        simp only [Option.some.injEq] at hfq
        exact ⟨by rw [← hfq]; exact hr5, q.2, List.snd_mem_of_mem_enum hq,
          (resonanceOf_isSome hro).2, by rw [← hfq]⟩
      · rw [if_neg hr5] at hfq
        exact absurd hfq (by simp)

theorem mem8_categoryGraph_mem {docs : List LibraryDocument}
    {g : List (String × List (String × ℝ))} {p : String × List (String × ℝ)}
    (hg : Mem8Ingester.categoryResonanceGraph docs = some g) (hp : p ∈ g) :
    ∃ doc i rs, Mem8Ingester.docResonances doc i docs = some rs ∧ doc ∈ docs ∧
      doc.wave_pattern.isSome ∧ p.1 = doc.id ∧
      p.2 = (List.insertionSort (descBy Prod.snd) rs).take 10 := by
  obtain ⟨a, ha, hfa⟩ := collectSome_mem_of hg hp
  cases hdr : Mem8Ingester.docResonances a.2 a.1 docs with
  | none => rw [hdr] at hfa; exact absurd hfa (by simp)
  | some rs =>
    rw [hdr] at hfa
    simp only [Option.map_some'] at hfa
    by_cases hemp : rs.isEmpty
    · rw [if_pos hemp] at hfa
      exact absurd hfa (by simp)
    · rw [if_neg hemp] at hfa
      simp only [Option.some.injEq] at hfa
      have hrs : rs ≠ [] := fun h0 => hemp (by rw [h0]; rfl)
      have hsome : a.2.wave_pattern.isSome := by
        obtain ⟨e, he⟩ := List.exists_mem_of_ne_nil rs hrs
        obtain ⟨q, hq, hfq⟩ := collectSome_mem_of hdr he
        by_cases hqi : q.1 = a.1
        · rw [if_pos hqi] at hfq; exact absurd hfq (by simp)
        · rw [if_neg hqi] at hfq
          cases hro : Mem8Ingester.resonanceOf a.2.wave_pattern q.2.wave_pattern with
          | none => rw [hro] at hfq; exact absurd hfq (by simp)
          | some r => exact (resonanceOf_isSome hro).1
      exact ⟨a.2, a.1, rs, hdr, List.snd_mem_of_mem_enum ha, hsome, by rw [← hfa],
        by rw [← hfa]⟩

theorem mem8_graphOfGroups_mem :
    ∀ {gs : List (String × List LibraryDocument)} {g : List (String × List (String × ℝ))}
      {p : String × List (String × ℝ)},
      Mem8Ingester.graphOfGroups gs = some g → p ∈ g →
      ∃ grp ∈ gs, ∃ gc, Mem8Ingester.categoryResonanceGraph grp.2 = some gc ∧ p ∈ gc
  | [], g, p, hg, hp => by
    simp only [Mem8Ingester.graphOfGroups, Option.some.injEq] at hg
    rw [← hg] at hp
    exact absurd hp (List.not_mem_nil p)
  | grp0 :: gs, g, p, hg, hp => by
    unfold Mem8Ingester.graphOfGroups at hg
    cases hc : Mem8Ingester.categoryResonanceGraph grp0.2 with
    | none => rw [hc] at hg; exact absurd hg (by simp)
    | some part =>
      rw [hc] at hg
      cases hrest : Mem8Ingester.graphOfGroups gs with
      | none => rw [hrest] at hg; exact absurd hg (by simp)
      | some rest =>
        rw [hrest] at hg
        simp only [Option.map_some', Option.some.injEq] at hg
        rw [← hg] at hp
        rcases List.mem_append.mp hp with hp2 | hp2
        · exact ⟨grp0, List.mem_cons_self grp0 gs, part, hc, hp2⟩
        · obtain ⟨grp2, hgrp2, gc, hgc, hpc⟩ := mem8_graphOfGroups_mem hrest hp2
          exact ⟨grp2, List.mem_cons_of_mem grp0 hgrp2, gc, hgc, hpc⟩

/-- Claim C4: in both builders every resonance-graph entry keeps at most K
neighbors (K = 10 for the Mem8 builder, K = 20 for the Qdrant builder, both
within the stated 10 to 20 band), sorted descending by score, and every
kept neighbor scores strictly above the 0.5 threshold. -/
theorem C4_graph_invariants (docs : List LibraryDocument) :
    (∀ g, Mem8Ingester.resonance_graph docs = some g →
      ∀ p ∈ g, p.2.length ≤ 10 ∧ List.Sorted (descBy Prod.snd) p.2 ∧
        ∀ e ∈ p.2, (0.5 : ℝ) < e.2) ∧
    (∀ p ∈ QdrantIngester.create_resonance_indices docs,
      p.2.length ≤ 20 ∧ List.Sorted (descBy QdrantIngester.ResonanceEntry.resonance) p.2 ∧
        ∀ e ∈ p.2, (0.5 : ℝ) < e.resonance) := by
  constructor
  · intro g hg p hp
    unfold Mem8Ingester.resonance_graph at hg
    obtain ⟨grp, hgrp, gc, hgc, hpc⟩ := mem8_graphOfGroups_mem hg hp
    obtain ⟨doc, i, rs, hdr, -, -, -, hps⟩ := mem8_categoryGraph_mem hgc hpc
    refine ⟨?_, ?_, ?_⟩
    · rw [hps, List.length_take]
      exact min_le_left _ _
    · rw [hps]
      exact (List.sorted_insertionSort _ _).sublist (List.take_sublist _ _)
    · intro e he
      rw [hps] at he
      have he2 : e ∈ List.insertionSort (descBy Prod.snd) rs :=
        (List.take_sublist _ _).subset he
      exact (mem8_docResonances_mem hdr ((List.mem_insertionSort _).mp he2)).1
  · intro p hp
    obtain ⟨grp, hgrp, hpc⟩ := create_resonance_indices_mem hp
    obtain ⟨-, i, w1, hps⟩ := qdrant_categoryEntries_mem hpc
    refine ⟨?_, ?_, ?_⟩
    · rw [hps, List.length_take]
      exact min_le_left _ _
    · rw [hps]
      exact (List.sorted_insertionSort _ _).sublist (List.take_sublist _ _)
    · intro e he
      rw [hps] at he
      have he2 : e ∈ List.insertionSort (descBy QdrantIngester.ResonanceEntry.resonance)
          (QdrantIngester.docResonances i w1 grp.1 grp.2) :=
        (List.take_sublist _ _).subset he
      exact (qdrant_docResonances_mem ((List.mem_insertionSort _).mp he2)).1

/-- Claim C2, amended: the Qdrant builder skips a document with no wave
pattern entirely: the document contributes no graph entry and is never a
target, and the builder is total. The Mem8 builder instead fails when a
pattern-less document shares a category with another document, because it
scores the missing pattern unguarded (see the counterexample). -/
theorem C2_qdrant_skips_patternless (docs : List LibraryDocument) (d : LibraryDocument)
    (hd : d ∈ docs) (hnone : d.wave_pattern = none)
    (hnodup : (docs.map LibraryDocument.id).Nodup) :
    ∀ p ∈ QdrantIngester.create_resonance_indices docs,
      p.1 ≠ d.id ∧ ∀ e ∈ p.2, e.target_id ≠ d.id := by
  intro p hp
  obtain ⟨grp, hgrp, hpc⟩ := create_resonance_indices_mem hp
  obtain ⟨⟨d1, hd1, hd1s, hpid⟩, i, w1, hps⟩ := qdrant_categoryEntries_mem hpc
  have hd1docs : d1 ∈ docs := groupByCategory_mem hgrp hd1
  constructor
  · intro heq
    have hids : d1.id = d.id := by rw [← hpid, heq]
    have : d1 = d := List.inj_on_of_nodup_map hnodup hd1docs hd hids
    rw [this, hnone] at hd1s
    exact absurd hd1s (by simp)
  · intro e he
    rw [hps] at he
    have he2 := (List.take_sublist _ _).subset he
    obtain ⟨-, d2, hd2, hd2s, htg⟩ :=
      qdrant_docResonances_mem ((List.mem_insertionSort _).mp he2)
    intro heq
    have hd2docs : d2 ∈ docs := groupByCategory_mem hgrp hd2
    have hids : d2.id = d.id := by rw [← htg, heq]
    have : d2 = d := List.inj_on_of_nodup_map hnodup hd2docs hd hids
    rw [this, hnone] at hd2s
    exact absurd hd2s (by simp)

/-- Witness for the amended C2 on a concrete three-document store with one
pattern-less document. -/
theorem C2_qdrant_skips_patternless_witness :
    sampleDoc "n" none ∈
      [sampleDoc "n" none, sampleDoc "a" (some samplePattern),
        sampleDoc "b" (some samplePattern)] ∧
    (sampleDoc "n" none).wave_pattern = none ∧
    (([sampleDoc "n" none, sampleDoc "a" (some samplePattern),
        sampleDoc "b" (some samplePattern)]).map LibraryDocument.id).Nodup ∧
    ∀ p ∈ QdrantIngester.create_resonance_indices
        [sampleDoc "n" none, sampleDoc "a" (some samplePattern),
          sampleDoc "b" (some samplePattern)],
      p.1 ≠ (sampleDoc "n" none).id ∧ ∀ e ∈ p.2, e.target_id ≠ (sampleDoc "n" none).id := by
  refine ⟨List.mem_cons_self _ _, rfl, ?_, ?_⟩
  · simp [sampleDoc]
  · exact C2_qdrant_skips_patternless _ _ (List.mem_cons_self _ _) rfl (by simp [sampleDoc])

/-! ## Concrete evaluations of the two builders -/

theorem resonance_sample :
    WaveTransformer.calculate_resonance samplePattern samplePattern = 1 := by
  have hc : WaveTransformer.componentAt samplePattern samplePattern 0 = 1 := by
    rw [ingestComponent_self]
    rfl
  simp only [WaveTransformer.calculate_resonance]
  have hmin : min samplePattern.frequencies.length samplePattern.frequencies.length = 1 := rfl
  rw [hmin]
  norm_num [Finset.sum_range_one, hc]

theorem sampleDocsAB_enum :
    sampleDocsAB.enum =
      [(0, sampleDoc "a" (some samplePattern)), (1, sampleDoc "b" (some samplePattern))] := rfl

theorem mem8_docRes_A :
    Mem8Ingester.docResonances (sampleDoc "a" (some samplePattern)) 0 sampleDocsAB =
      some [("b", 1)] := by
  unfold Mem8Ingester.docResonances
  rw [sampleDocsAB_enum]
  norm_num [collectSome, Mem8Ingester.resonanceOf, sampleDoc, resonance_sample]

theorem mem8_docRes_B :
    Mem8Ingester.docResonances (sampleDoc "b" (some samplePattern)) 1 sampleDocsAB =
      some [("a", 1)] := by
  unfold Mem8Ingester.docResonances
  rw [sampleDocsAB_enum]
  norm_num [collectSome, Mem8Ingester.resonanceOf, sampleDoc, resonance_sample]

theorem mem8_graph_sample :
    Mem8Ingester.resonance_graph sampleDocsAB =
      some [("a", [("b", 1)]), ("b", [("a", 1)])] := by
  have hcat : Mem8Ingester.categoryResonanceGraph sampleDocsAB =
      some [("a", [("b", 1)]), ("b", [("a", 1)])] := by
    unfold Mem8Ingester.categoryResonanceGraph
    rw [sampleDocsAB_enum]
    simp only [collectSome, mem8_docRes_A, mem8_docRes_B, Option.map_some']
    norm_num [List.insertionSort, List.orderedInsert, sampleDoc]
  have hgrp : groupByCategory sampleDocsAB = [("cat", sampleDocsAB)] := rfl
  unfold Mem8Ingester.resonance_graph
  rw [hgrp]
  simp [Mem8Ingester.graphOfGroups, hcat]

theorem qdrant_docRes_A :
    QdrantIngester.docResonances 0 samplePattern "cat" sampleDocsAB =
      [⟨"b", 1, "cat"⟩] := by
  unfold QdrantIngester.docResonances
  rw [sampleDocsAB_enum]
  norm_num [List.filterMap, sampleDoc, resonance_sample]

theorem qdrant_docRes_B :
    QdrantIngester.docResonances 1 samplePattern "cat" sampleDocsAB =
      [⟨"a", 1, "cat"⟩] := by
  unfold QdrantIngester.docResonances
  rw [sampleDocsAB_enum]
  norm_num [List.filterMap, sampleDoc, resonance_sample]

theorem qdrant_graph_sample :
    QdrantIngester.create_resonance_indices sampleDocsAB =
      [("a", [⟨"b", 1, "cat"⟩]), ("b", [⟨"a", 1, "cat"⟩])] := by
  have hcat : QdrantIngester.categoryEntries "cat" sampleDocsAB =
      [("a", [⟨"b", 1, "cat"⟩]), ("b", [⟨"a", 1, "cat"⟩])] := by
    unfold QdrantIngester.categoryEntries
    rw [sampleDocsAB_enum]
    simp only [List.filterMap_cons, List.filterMap_nil]
    norm_num [sampleDoc, qdrant_docRes_A, qdrant_docRes_B, List.insertionSort,
      List.orderedInsert]
  have hgrp : groupByCategory sampleDocsAB = [("cat", sampleDocsAB)] := rfl
  unfold QdrantIngester.create_resonance_indices
  rw [hgrp]
  simp [hcat]

/-- Witness for C4 at the concrete two-document store. -/
theorem C4_graph_invariants_witness :
    ([(("b" : String), (1 : ℝ))].length ≤ 10 ∧
      List.Sorted (descBy Prod.snd) [(("b" : String), (1 : ℝ))] ∧
      ∀ e ∈ [(("b" : String), (1 : ℝ))], (0.5 : ℝ) < e.2) ∧
    ([(⟨"b", 1, "cat"⟩ : QdrantIngester.ResonanceEntry)].length ≤ 20 ∧
      List.Sorted (descBy QdrantIngester.ResonanceEntry.resonance)
        [(⟨"b", 1, "cat"⟩ : QdrantIngester.ResonanceEntry)] ∧
      ∀ e ∈ [(⟨"b", 1, "cat"⟩ : QdrantIngester.ResonanceEntry)], (0.5 : ℝ) < e.resonance) := by
  have h := C4_graph_invariants sampleDocsAB
  have h1 := h.1 [("a", [("b", 1)]), ("b", [("a", 1)])] mem8_graph_sample
    ("a", [("b", 1)]) (by simp)
  have h2 := h.2 ("a", [⟨"b", 1, "cat"⟩]) (by rw [qdrant_graph_sample]; simp)
  exact ⟨h1, h2⟩

/-- Counterexample to C2 as stated: the Mem8 builder fails (modelled none)
on a store where a pattern-less document shares its category with another
document, instead of skipping it. -/
theorem C2_counterexample :
    Mem8Ingester.resonance_graph [sampleDoc "n" none, sampleDoc "a" (some samplePattern)] =
      none := rfl

/-! ## Safety of find_harmonics: the guarded first-element accesses -/

theorem harmonicScore_ne_zero_nonempty {ht : String} {bf of : List ℝ}
    (h : WaveSearchEngine.harmonicScore ht bf of ≠ 0) : bf ≠ [] ∧ of ≠ [] := by
  constructor
  · rintro rfl
    exact h (by simp [WaveSearchEngine.harmonicScore])
  · rintro rfl
    exact h (by simp [WaveSearchEngine.harmonicScore])

theorem harmonicEntryFor_isSome (doc_id : String) (bw : WavePattern) (ht : String)
    (d : LibraryDocument) : (WaveSearchEngine.harmonicEntryFor doc_id bw ht d).isSome := by
  unfold WaveSearchEngine.harmonicEntryFor
  by_cases hid : d.id = doc_id
  · simp [hid]
  · rw [if_neg hid]
    match d.wave_pattern with
    | none => rfl
    | some ow =>
      by_cases hs : 0 < WaveSearchEngine.harmonicScore ht bw.frequencies ow.frequencies
      · obtain ⟨h1, h2⟩ := harmonicScore_ne_zero_nonempty (ne_of_gt hs)
        match hbf : bw.frequencies, hof : ow.frequencies with
        | [], _ => exact absurd hbf h1
        | _ :: _, [] => exact absurd hof h2
        | b0 :: bs, o0 :: os =>
          rw [hbf, hof] at hs
          simp only [hbf, hof, if_pos hs]
          rfl
      · simp only [if_neg hs]
        rfl

/-- Claim C10: find_harmonics never fails: the first-element accesses used
for the relationship label are guarded by a positive harmonic score, which
forces both frequency lists to be non-empty; documents with empty
frequency lists are skipped, not errors. -/
theorem C10_find_harmonics_total (doc_id harmonic_type : String)
    (docs : List LibraryDocument) :
    (WaveSearchEngine.find_harmonics doc_id harmonic_type docs).isSome := by
  unfold WaveSearchEngine.find_harmonics
  cases hf : docs.find? (fun d => d.id == doc_id) with
  | none => simp [hf]
  | some base =>
    cases hp : base.wave_pattern with
    | none => simp [hf, hp]
    | some bw =>
      have hcs : (collectSome (WaveSearchEngine.harmonicEntryFor doc_id bw harmonic_type)
          docs).isSome :=
        collectSome_isSome (fun d _ => harmonicEntryFor_isSome doc_id bw harmonic_type d)
      obtain ⟨hs, hhs⟩ := Option.isSome_iff_exists.mp hcs
      simp [hf, hp, hhs]

/-! ## The octave lookup of find_harmonics -/

theorem harmonicContribution_nonneg (ht : String) (bfs ofs : List ℝ) (i : ℕ) :
    0 ≤ WaveSearchEngine.harmonicContribution ht bfs ofs i := by
  simp only [WaveSearchEngine.harmonicContribution]
  split_ifs <;> norm_num

theorem harmonicScore_octave_ge_one (bfs ofs : List ℝ) :
    (1 : ℝ) ≤ WaveSearchEngine.harmonicScore "octave" (20 :: bfs) (40 :: ofs) := by
  unfold WaveSearchEngine.harmonicScore
  rw [List.length_cons, List.length_cons, Nat.succ_min_succ, Finset.sum_range_succ']
  have h0 : WaveSearchEngine.harmonicContribution "octave" (20 :: bfs) (40 :: ofs) 0 = 1 := by
    unfold WaveSearchEngine.harmonicContribution
    norm_num
  rw [h0]
  have hrest : 0 ≤ ∑ i ∈ Finset.range (min bfs.length ofs.length),
      WaveSearchEngine.harmonicContribution "octave" (20 :: bfs) (40 :: ofs) (i + 1) :=
    Finset.sum_nonneg (fun i _ => harmonicContribution_nonneg _ _ _ _)
  linarith

theorem identify_20_40 : WaveSearchEngine._identify_harmonic_type 20 40 = "octave" := by
  unfold WaveSearchEngine._identify_harmonic_type
  norm_num

/-- Claim C9, amended: when at most 11 documents are stored (so that the
top-10 truncation cannot drop the entry), an octave lookup on a base
document whose first frequency is 20 includes every other stored document
whose first frequency is 40, with harmonic score at least 1 and
relationship label octave. Beyond 11 documents the entry can be truncated
away (see the counterexample). -/
theorem C9_octave_lookup (docs : List LibraryDocument) (doc_id : String)
    (base other : LibraryDocument) (bw ow : WavePattern) (bfs ofs : List ℝ)
    (hfind : docs.find? (fun d => d.id == doc_id) = some base)
    (hbw : base.wave_pattern = some bw)
    (hother : other ∈ docs) (hoid : other.id ≠ doc_id)
    (how : other.wave_pattern = some ow)
    (hbf : bw.frequencies = 20 :: bfs) (hof : ow.frequencies = 40 :: ofs)
    (hlen : docs.length ≤ 11) :
    ∃ l, WaveSearchEngine.find_harmonics doc_id "octave" docs = some l ∧
      ∃ e ∈ l, e.id = other.id ∧ (1 : ℝ) ≤ e.harmonic_score ∧
        e.relationship = "octave" := by
  have hscore : (1 : ℝ) ≤ WaveSearchEngine.harmonicScore "octave" bw.frequencies
      ow.frequencies := by
    rw [hbf, hof]
    exact harmonicScore_octave_ge_one bfs ofs
  have hentry : WaveSearchEngine.harmonicEntryFor doc_id bw "octave" other =
      some (some ⟨other.id, other.title, other.category,
        WaveSearchEngine.harmonicScore "octave" bw.frequencies ow.frequencies, "octave"⟩) := by
    unfold WaveSearchEngine.harmonicEntryFor
    rw [if_neg hoid]
    simp only [how]
    rw [if_pos (by linarith : (0 : ℝ) <
      WaveSearchEngine.harmonicScore "octave" bw.frequencies ow.frequencies)]
    rw [hbf, hof]
    simp only [identify_20_40]
  obtain ⟨hs, hcollect⟩ := Option.isSome_iff_exists.mp
    (collectSome_isSome (l := docs)
      (fun d _ => harmonicEntryFor_isSome doc_id bw "octave" d))
  have hbase_mem : base ∈ docs := List.mem_of_find?_eq_some hfind
  have hbase_id : base.id = doc_id := by
    have := List.find?_some hfind
    simpa using this
  have hfbase : WaveSearchEngine.harmonicEntryFor doc_id bw "octave" base = some none := by
    unfold WaveSearchEngine.harmonicEntryFor
    rw [if_pos hbase_id]
  have hslen : hs.length < docs.length := collectSome_length_lt hbase_mem hfbase hcollect
  have hs10 : hs.length ≤ 10 := by omega
  have hmem : (⟨other.id, other.title, other.category,
      WaveSearchEngine.harmonicScore "octave" bw.frequencies ow.frequencies, "octave"⟩ :
        WaveSearchEngine.HarmonicEntry) ∈ hs :=
    collectSome_mem hother hentry hcollect
  refine ⟨(List.insertionSort (descBy WaveSearchEngine.HarmonicEntry.harmonic_score) hs).take 10,
    ?_, ?_⟩
  · unfold WaveSearchEngine.find_harmonics
    simp only [hfind, hbw, hcollect, Option.map_some']
  · refine ⟨⟨other.id, other.title, other.category,
      WaveSearchEngine.harmonicScore "octave" bw.frequencies ow.frequencies, "octave"⟩,
      ?_, rfl, hscore, rfl⟩
    rw [List.take_of_length_le (by rw [List.length_insertionSort]; exact hs10)]
    exact (List.mem_insertionSort _).mpr hmem

/-- Witness for the amended C9 on a two-document store. -/
theorem C9_octave_lookup_witness :
    ([sampleDoc "b" (some samplePattern), sampleDoc "t" (some targetPatternCX)]).find?
      (fun d => d.id == "b") = some (sampleDoc "b" (some samplePattern)) ∧
    (sampleDoc "t" (some targetPatternCX)).id ≠ "b" ∧
    ∃ l, WaveSearchEngine.find_harmonics "b" "octave"
        [sampleDoc "b" (some samplePattern), sampleDoc "t" (some targetPatternCX)] = some l ∧
      ∃ e ∈ l, e.id = (sampleDoc "t" (some targetPatternCX)).id ∧
        (1 : ℝ) ≤ e.harmonic_score ∧ e.relationship = "octave" := by
  refine ⟨rfl, by simp [sampleDoc], ?_⟩
  exact C9_octave_lookup
    [sampleDoc "b" (some samplePattern), sampleDoc "t" (some targetPatternCX)]
    "b" (sampleDoc "b" (some samplePattern)) (sampleDoc "t" (some targetPatternCX))
    samplePattern targetPatternCX [] []
    rfl rfl (by simp) (by simp [sampleDoc]) rfl rfl rfl (by norm_num)

theorem harmonicScore_comp :
    WaveSearchEngine.harmonicScore "octave" [(20 : ℝ), 120] [(40 : ℝ), 240] = 2 := by
  unfold WaveSearchEngine.harmonicScore
  have hmin : min ([(20 : ℝ), 120]).length ([(40 : ℝ), 240]).length = 2 := rfl
  rw [hmin, Finset.sum_range_succ, Finset.sum_range_one]
  have h0 : WaveSearchEngine.harmonicContribution "octave" [(20 : ℝ), 120] [(40 : ℝ), 240] 0
      = 1 := by
    unfold WaveSearchEngine.harmonicContribution
    norm_num
  have h1 : WaveSearchEngine.harmonicContribution "octave" [(20 : ℝ), 120] [(40 : ℝ), 240] 1
      = 1 := by
    unfold WaveSearchEngine.harmonicContribution
    norm_num
  rw [h0, h1]
  norm_num

theorem harmonicScore_target :
    WaveSearchEngine.harmonicScore "octave" [(20 : ℝ), 120] [(40 : ℝ)] = 1 := by
  unfold WaveSearchEngine.harmonicScore
  have hmin : min ([(20 : ℝ), 120]).length ([(40 : ℝ)]).length = 1 := rfl
  rw [hmin, Finset.sum_range_one]
  unfold WaveSearchEngine.harmonicContribution
  norm_num

theorem entryFor_base_CX :
    WaveSearchEngine.harmonicEntryFor "b" basePatternCX "octave"
      (sampleDoc "b" (some basePatternCX)) = some none := by
  unfold WaveSearchEngine.harmonicEntryFor
  rw [if_pos (show (sampleDoc "b" (some basePatternCX)).id = "b" from rfl)]

theorem entryFor_comp_CX (s : String) (hs : ¬(s = "b")) :
    WaveSearchEngine.harmonicEntryFor "b" basePatternCX "octave"
      (sampleDoc s (some compPatternCX)) = some (some (entryCX s 2)) := by
  unfold WaveSearchEngine.harmonicEntryFor
  rw [if_neg (show ¬((sampleDoc s (some compPatternCX)).id = "b") from hs)]
  simp only [sampleDoc, basePatternCX, compPatternCX, harmonicScore_comp, entryCX,
    identify_20_40]
  norm_num

theorem entryFor_target_CX :
    WaveSearchEngine.harmonicEntryFor "b" basePatternCX "octave"
      (sampleDoc "t" (some targetPatternCX)) = some (some (entryCX "t" 1)) := by
  unfold WaveSearchEngine.harmonicEntryFor
  rw [if_neg (show ¬((sampleDoc "t" (some targetPatternCX)).id = "b") from by simp [sampleDoc])]
  simp only [sampleDoc, basePatternCX, targetPatternCX, harmonicScore_target, entryCX,
    identify_20_40]
  norm_num

theorem collect_CX :
    collectSome (WaveSearchEngine.harmonicEntryFor "b" basePatternCX "octave") docsCX =
      some [entryCX "c1" 2, entryCX "c2" 2, entryCX "c3" 2, entryCX "c4" 2, entryCX "c5" 2,
        entryCX "c6" 2, entryCX "c7" 2, entryCX "c8" 2, entryCX "c9" 2, entryCX "c10" 2,
        entryCX "c11" 2, entryCX "t" 1] := by
  have h1 := entryFor_comp_CX "c1" (by simp)
  have h2 := entryFor_comp_CX "c2" (by simp)
  have h3 := entryFor_comp_CX "c3" (by simp)
  have h4 := entryFor_comp_CX "c4" (by simp)
  have h5 := entryFor_comp_CX "c5" (by simp)
  have h6 := entryFor_comp_CX "c6" (by simp)
  have h7 := entryFor_comp_CX "c7" (by simp)
  have h8 := entryFor_comp_CX "c8" (by simp)
  have h9 := entryFor_comp_CX "c9" (by simp)
  have h10 := entryFor_comp_CX "c10" (by simp)
  have h11 := entryFor_comp_CX "c11" (by simp)
  simp only [docsCX, collectSome, entryFor_base_CX, h1, h2, h3, h4, h5, h6, h7, h8, h9, h10,
    h11, entryFor_target_CX, Option.map_some']

theorem sorted_CX :
    List.Sorted (descBy WaveSearchEngine.HarmonicEntry.harmonic_score)
      [entryCX "c1" 2, entryCX "c2" 2, entryCX "c3" 2, entryCX "c4" 2, entryCX "c5" 2,
        entryCX "c6" 2, entryCX "c7" 2, entryCX "c8" 2, entryCX "c9" 2, entryCX "c10" 2,
        entryCX "c11" 2, entryCX "t" 1] := by
  norm_num [List.sorted_cons, descBy, entryCX]

/-- Counterexample to C9 as stated: in a thirteen-document store the
octave lookup on base b (first frequency 20) drops the stored document t
(first frequency 40) from its returned top 10, because eleven competitors
score higher; the returned list contains no entry for t. -/
theorem C9_counterexample :
    sampleDoc "t" (some targetPatternCX) ∈ docsCX ∧
    basePatternCX.frequencies = [(20 : ℝ), 120] ∧
    targetPatternCX.frequencies = [(40 : ℝ)] ∧
    WaveSearchEngine.find_harmonics "b" "octave" docsCX =
      some [entryCX "c1" 2, entryCX "c2" 2, entryCX "c3" 2, entryCX "c4" 2, entryCX "c5" 2,
        entryCX "c6" 2, entryCX "c7" 2, entryCX "c8" 2, entryCX "c9" 2, entryCX "c10" 2] ∧
    ∀ e ∈ [entryCX "c1" 2, entryCX "c2" 2, entryCX "c3" 2, entryCX "c4" 2, entryCX "c5" 2,
      entryCX "c6" 2, entryCX "c7" 2, entryCX "c8" 2, entryCX "c9" 2, entryCX "c10" 2],
      e.id ≠ "t" := by
  refine ⟨by simp [docsCX], rfl, rfl, ?_, ?_⟩
  · unfold WaveSearchEngine.find_harmonics
    have hfind : docsCX.find? (fun d => d.id == "b") =
        some (sampleDoc "b" (some basePatternCX)) := rfl
    have hbw : (sampleDoc "b" (some basePatternCX)).wave_pattern = some basePatternCX := rfl
    simp only [hfind, hbw, collect_CX, Option.map_some', sorted_CX.insertionSort_eq]
    rfl
  · intro e he
    simp only [List.mem_cons, List.not_mem_nil, or_false] at he
    rcases he with rfl | rfl | rfl | rfl | rfl | rfl | rfl | rfl | rfl | rfl <;>
      simp [entryCX]
